import Mathlib

/-!
Shallow embedding of the migration engine of `node-db-migrate`
(`lib/utils.js` and `lib/schema.js`), together with proofs about the
embedded operations.

The JavaScript code is translated as follows: strings are Lean `String`s
(the migration filenames and version strings handled by the code are
ASCII, so JavaScript UTF-16 indices coincide with character indices);
JavaScript numbers appearing in the version code are non-negative
integers modelled as `Nat`, with `NaN` modelled as `none` of an
`Option`; fallible code returns `Except String`; the database, the file
system, the clock, and the transaction executor are external
collaborators modelled as explicit state / oracle parameters.
-/

namespace DbMigrate

/-! ## Character-list primitives

The embedding implements the handful of string operations the code
relies on (`split`, `parseInt`, number rendering, stable sort) by
structural recursion over character lists, so that every definition in
this file evaluates by kernel reduction on concrete inputs. -/

/-- Decimal value of a character list: defined exactly when the list is
non-empty and all digits (the only shape `parseInt` / unary `+` meet in
this code after validation). -/
def charsToNat? (cs : List Char) : Option Nat :=
  if cs.isEmpty then none
  else if cs.all Char.isDigit then
    some (cs.foldl (fun acc c => 10 * acc + (c.toNat - 48)) 0)
  else none

/-- Decimal digits of `n`, most significant first (`fuel ≥ n` suffices;
the fuel keeps the recursion structural). -/
def natToCharsAux : Nat → Nat → List Char
  | 0, _ => []
  | _ + 1, 0 => []
  | fuel + 1, n => natToCharsAux fuel (n / 10) ++ [Char.ofNat (48 + n % 10)]

/-- Canonical decimal rendering of a natural number (what JavaScript's
`String(n)` produces for the integers handled by this code). -/
def natToString (n : Nat) : String :=
  if n = 0 then "0" else (natToCharsAux (n + 1) n).asString

/-- `String.prototype.split` with a single-character separator:
`"a.b" → ["a","b"]`, `"" → [""]`, `".5" → ["", "5"]`. -/
def splitOnCharList (sep : Char) : List Char → List (List Char)
  | [] => [[]]
  | c :: rest =>
    if c = sep then [] :: splitOnCharList sep rest
    else
      match splitOnCharList sep rest with
      | g :: gs => (c :: g) :: gs
      | [] => [[c]]

/-- `split` on strings. -/
def jsSplit (s : String) (sep : Char) : List String :=
  (splitOnCharList sep s.toList).map List.asString

/-- Stable insert of `x` after every already-placed element `y` with
`le y x`. -/
def insortBy (le : α → α → Bool) (x : α) : List α → List α
  | [] => [x]
  | y :: ys => if le y x then y :: insortBy le x ys else x :: y :: ys

/-- Stable comparator sort (lodash `sortBy` and V8 `Array#sort` with a
consistent comparator are stable, which determines their output
uniquely). -/
def stableSortBy (le : α → α → Bool) (l : List α) : List α :=
  l.foldl (fun acc x => insortBy le x acc) []

instance {ε α : Type} [DecidableEq ε] [DecidableEq α] : DecidableEq (Except ε α) :=
  fun a b =>
    match a, b with
    | .ok x, .ok y =>
      if h : x = y then .isTrue (by rw [h])
      else .isFalse (fun hc => h (Except.ok.inj hc))
    | .error x, .error y =>
      if h : x = y then .isTrue (by rw [h])
      else .isFalse (fun hc => h (Except.error.inj hc))
    | .ok _, .error _ => .isFalse (fun hc => Except.noConfusion hc)
    | .error _, .ok _ => .isFalse (fun hc => Except.noConfusion hc)

/-! ## JavaScript primitives used by the code -/

/-- JavaScript truthiness for an optional string: `undefined` and the
empty string are falsy. -/
def jsFalsy : Option String → Bool
  | none => true
  | some s => s = ""

/-- JavaScript unary `+` coercion of a string to a number, restricted to
the strings that occur in `compareVersion` (version components, i.e.
digit strings, and the padding value `0`): `+"" = 0`, a digit string is
its value, anything else is `NaN` (modelled as `none`). -/
def jsToNum (s : String) : Option Nat :=
  if s = "" then some 0 else charsToNat? s.toList

/-- Whether a string is a JavaScript array-index property key (a
canonical decimal numeral whose value is below `2^32 - 1`).  Object
property enumeration lists such keys first, in ascending numeric
order. -/
def isArrayIndexKey (s : String) : Bool :=
  match charsToNat? s.toList with
  | some n => natToString n = s && n < 4294967295
  | none => false

/-- Keys of a JavaScript object in insertion order (first occurrence
wins), before the array-index reordering. -/
def insertOrderKeys (l : List String) : List String :=
  l.foldl (fun acc v => if v ∈ acc then acc else acc ++ [v]) []

/-- `Object.keys` ordering: array-index-like keys in ascending numeric
order first, then the remaining keys in insertion order. -/
def jsObjectKeys (ks : List String) : List String :=
  stableSortBy
      (fun a b => ((charsToNat? a.toList).getD 0) ≤ ((charsToNat? b.toList).getD 0))
      (ks.filter isArrayIndexKey)
    ++ ks.filter (fun k => !isArrayIndexKey k)

/-- JavaScript `String.prototype.substring(a, b)`: indices are clamped
to the string length and swapped when `a > b`. -/
def jsSubstring (s : String) (a b : Nat) : String :=
  let a' := min a s.length
  let b' := min b s.length
  let lo := min a' b'
  let hi := max a' b'
  (s.drop lo).take (hi - lo)

/-- First index of the separator `"__"` in a character list
(`String.prototype.indexOf("__")`, `none` for `-1`). -/
def indexOfDunder : List Char → Option Nat
  | '_' :: '_' :: _ => some 0
  | _ :: rest => (indexOfDunder rest).map (· + 1)
  | [] => none

/-- `path.basename`: the part of a path after the last `'/'`. -/
def jsBasename (p : String) : String :=
  match (jsSplit p '/').getLast? with
  | some b => b
  | none => p

/-! ## Version Model (`lib/utils.js`) -/

/-- The language of the validation regex `/^\d?([\d\.]+)?\d$/` in
`parseVersion`: a non-empty string over digits and dots whose last
character is a digit.  (Any such string matches: take the optional
leading `\d?` empty, the middle group as everything but the last
character, and the final `\d` as the last character; conversely every
match clearly has this shape.)  Note the regex does NOT force the first
character to be a digit: `".5"` matches. -/
def versionRegexMatch (s : String) : Bool :=
  s.length > 0
    && s.toList.all (fun c => c.isDigit || c == '.')
    && (s.toList.getLast?.elim false Char.isDigit)

/-- `String(parseInt(n))` for the component strings produced inside
`parseVersion` (after the regex test every component consists of digits
only, possibly empty): the empty string gives `NaN`, rendered `"NaN"`;
a digit string is re-rendered canonically (leading zeros stripped). -/
def jsParseIntRender (s : String) : String :=
  match charsToNat? s.toList with
  | some n => natToString n
  | none => "NaN"

/-- `parseVersion` from `lib/utils.js`: reject the falsy (empty) string;
strip one leading `v`/`V`; replace every `_` by `.`; test the regex
`/^\d?([\d\.]+)?\d$/`; re-render each dot-separated component through
`parseInt`. -/
def parseVersion (version : String) : Except String String :=
  if version = "" then
    .error ("Bad version: " ++ version)
  else
    let v1 := if version.front == 'v' || version.front == 'V'
              then version.drop 1 else version
    let v2 := (v1.toList.map (fun c => if c = '_' then '.' else c)).asString
    if versionRegexMatch v2 = false then
      .error ("Invalid version, probably a non-numeric format " ++
        "or starting with a dot (.) instead of a digit or a letter: " ++ v2)
    else
      .ok (String.intercalate "." ((jsSplit v2 '.').map jsParseIntRender))

/-- Pad a component list on the right with `"0"` up to length `n`
(the `while` loop in `compareVersion` pushes `0` onto the shorter
array; `+0` and `+"0"` coerce to the same number). -/
def padZeros (l : List String) (n : Nat) : List String :=
  l ++ List.replicate (n - l.length) "0"

/-- The comparison loop of `compareVersion` on two equal-length
component lists: coerce both components with unary `+`; `NaN`
comparisons are false in JavaScript, so a `NaN` on either side falls
through to the next component. -/
def cmpParts : List String → List String → Int
  | a :: as, b :: bs =>
    (match jsToNum a, jsToNum b with
     | some x, some y =>
       if x < y then -1 else if y < x then 1 else cmpParts as bs
     | _, _ => cmpParts as bs)
  | _, _ => 0

/-- `compareVersion` from `lib/utils.js`.  A falsy version (absent or
empty) is smaller than any truthy one, two falsy versions are equal;
otherwise split on `.`, zero-pad the shorter list, and compare
component-wise. -/
def compareVersion (v1 v2 : Option String) : Int :=
  if jsFalsy v1 then
    (if jsFalsy v2 then 0 else -1)
  else if jsFalsy v2 then 1
  else
    let p1 := jsSplit (v1.getD "") '.'
    let p2 := jsSplit (v2.getD "") '.'
    let n := max p1.length p2.length
    cmpParts (padZeros p1 n) (padZeros p2 n)

/-! ## Script Discovery (`lib/utils.js`) -/

/-- Index of the last `'.'` in a character list. -/
def lastIndexOfDot (cs : List Char) : Option Nat :=
  match cs.reverse.findIdx? (· == '.') with
  | some j => some (cs.length - 1 - j)
  | none => none

/-- `getFileExtension` from `lib/utils.js`: `path.extname` (the suffix
from the last `'.'`, empty when there is no dot or the only dot is the
leading character of a dotfile) lower-cased. -/
def getFileExtension (filename : String) : String :=
  match lastIndexOfDot filename.toList with
  | none => ""
  | some 0 => ""
  | some i => ((filename.drop i).toList.map Char.toLower).asString

/-- A migration descriptor as produced by `parseFilename`; `rank` is
absent until the engine assigns it right before execution. -/
structure Migration where
  script : String
  path : String
  type : String
  version : String
  description : String
  rank : Option Nat := none
deriving Repr, DecidableEq

/-- `parseFilename` from `lib/utils.js`: the basename must have a
`.sql` / `.js` extension (case-insensitive); the version token is
everything before the first `"__"` (the whole basename minus extension
when there is none), parsed by `parseVersion`; the description is the
part between the `"__"` and the extension, with underscores rendered as
spaces.  The argument is the resolved path `directory ++ "/" ++ entry`
built by `discovery`. -/
def parseFilename (migrationScript : String) : Except String Migration :=
  let basename := jsBasename migrationScript
  let extension := getFileExtension basename
  if !(extension == ".sql" || extension == ".js") then
    .error ("Invalid migration script type, file extension " ++
      "was expected to be .sql / .js but got: " ++ extension)
  else
    let rawDesc : String × String :=
      match indexOfDunder basename.toList with
      | none => (basename, "")
      | some pos =>
        (basename.take pos,
         jsSubstring basename (pos + 2) (basename.length - extension.length))
    match parseVersion rawDesc.1 with
    | .error e => .error e
    | .ok version =>
      .ok { script := basename
            path := migrationScript
            type := if extension == ".js" then "Node.js" else "SQL"
            version := version
            description :=
              (rawDesc.2.toList.map (fun c => if c = '_' then ' ' else c)).asString }

/-- The per-entry mapper of `discovery`: a filename that fails to parse
is logged and swallowed (`none`); a parsed entry is dropped when its
version is strictly greater than a truthy `targetVersion`, else when it
is strictly below a truthy `baseVersion`, else when it equals the
`baseVersion` and its basename is listed in `baseVersionObjects`;
otherwise it is kept.  `targetVersion` / `baseVersion` arrive here
already normalised by `parseVersion`. -/
def discoveryFilter (targetVersion baseVersion : Option String)
    (baseVersionObjects : Option (List String))
    (directory script : String) : Option Migration :=
  match parseFilename (directory ++ "/" ++ script) with
  | .error _ => none
  | .ok migration =>
    let version := migration.version
    let object := migration.script
    if !(jsFalsy targetVersion) && compareVersion (some version) targetVersion == 1 then
      none
    else if !(jsFalsy baseVersion) && compareVersion baseVersion (some version) == 1 then
      none
    else if !(jsFalsy baseVersion) && compareVersion baseVersion (some version) == 0
            && (match baseVersionObjects with
                | some objs => object ∈ objs
                | none => false) then
      none
    else
      some migration

/-- The grouping stage of `discovery`: group the kept descriptors by
version (a JavaScript object, so version keys are enumerated with the
array-index reordering of `jsObjectKeys`), sort the keys with
`compareVersion`, and list the groups in that key order.  Discovery
order is preserved inside each group. -/
def groupMigrationsByVersion (ms : List Migration) : List (List Migration) :=
  let keys := jsObjectKeys (insertOrderKeys (ms.map (·.version)))
  let sortedKeys :=
    stableSortBy (fun a b => compareVersion (some a) (some b) ≤ 0) keys
  sortedKeys.map (fun k => ms.filter (fun m => m.version = k))

/-- `discovery` from `lib/utils.js`, given the entries `listing` of a
successfully read directory (the `fs.lstat` / `fs.readdir` calls are
the external file-system collaborator; a directory-level failure
rejects the whole call and is not modelled further).  A truthy
`targetVersion` / `baseVersion` is normalised through `parseVersion`
first, whose failure rejects the call. -/
def discovery (directory : String) (targetVersion baseVersion : Option String)
    (baseVersionObjects : Option (List String))
    (listing : List String) : Except String (List (List Migration)) :=
  match (match targetVersion with
         | some t => if t ≠ "" then (parseVersion t).map some else .ok targetVersion
         | none => .ok none) with
  | .error e => .error e
  | .ok target =>
    match (match baseVersion with
           | some b => if b ≠ "" then (parseVersion b).map some else .ok baseVersion
           | none => .ok none) with
    | .error e => .error e
    | .ok base =>
      .ok (groupMigrationsByVersion
        ((listing.map (discoveryFilter target base baseVersionObjects directory)).filterMap id))

/-- The options object that `SchemaManager.migrate` and
`SchemaManager.repair` (`lib/schema.js`) build and pass to
`Util.discovery` as a single argument (`repair` only sets
`directory`). -/
structure DiscoveryOptions where
  directory : String
  targetVersion : Option String := none
  baseVersion : Option String := none
  baseVersionObjects : Option (List String) := none
deriving Repr, DecidableEq

/-- A JavaScript value passed in the `directory` parameter position of
`discovery`: either a string (as the positional signature expects) or
an options object (as `SchemaManager.migrate` actually passes). -/
inductive JsArg where
  | str (s : String)
  | obj (o : DiscoveryOptions)
deriving Repr, DecidableEq

/-- `discovery` as invoked through JavaScript's untyped calling
convention: the first argument lands in the positional `directory`
parameter, and the guard `if (!_.isString(directory)) throw ...` at the
top of `discovery` rejects anything that is not a string. -/
def discoveryJs (directory : JsArg) (targetVersion baseVersion : Option String)
    (baseVersionObjects : Option (List String))
    (listing : List String) : Except String (List (List Migration)) :=
  match directory with
  | .str d => discovery d targetVersion baseVersion baseVersionObjects listing
  | .obj _ => .error "`directory` argument must be a string"

/-! ## Revision Ledger (`lib/schema.js`) -/

/-- One row of the `schema_version` table.  `_createObjects` creates
the table with an auto-incrementing surrogate key and NO unique
constraint on any column combination. -/
structure RevisionRecord where
  version : String
  description : String
  type : String
  script : String
  checksum : Option Nat := none
  installed_rank : Nat
  installed_by : String
  installation_time : Nat
  execution_time : Nat
  status : Nat
  reason : Option String := none
deriving Repr, DecidableEq

/-- The ledger table: `none` when the table does not exist (reads and
writes fail), otherwise its rows in insertion order. -/
abbrev Ledger := Option (List RevisionRecord)

/-- `_createObjects`: `CREATE TABLE IF NOT EXISTS` — never destructive. -/
def _createObjects (db : Ledger) : Ledger :=
  some (db.getD [])

/-- `_deleteObjects`: `DELETE FROM schema_version` (fails when the
table does not exist). -/
def _deleteObjects (db : Ledger) : Except String Ledger :=
  match db with
  | none => .error "table does not exist"
  | some _ => .ok (some [])

/-- `_dropObjects`: `DROP TABLE IF EXISTS` — idempotent. -/
def _dropObjects (_db : Ledger) : Ledger :=
  none

/-- `_parseObject`: re-validate the version with `parseVersion` (this
can throw) and keep the ledger columns. -/
def _parseObject (obj : RevisionRecord) : Except String RevisionRecord :=
  (parseVersion obj.version).map (fun v => { obj with version := v })

/-- `_addObject`: validate through `_parseObject`, then run a plain SQL
`INSERT` of the row — a new row is appended unconditionally, there is
no update-in-place path and no key to conflict with. -/
def _addObject (db : List RevisionRecord) (obj : RevisionRecord) :
    Except String (List RevisionRecord) :=
  (_parseObject obj).map (fun ov => db ++ [ov])

/-- The lodash `groupBy("version")` of the ledger rows (a JavaScript
object, enumerated with the array-index key reordering), each group
stably sorted by `installed_rank` (`mapValues(sortBy(...))`). -/
def groupRows (rows : List RevisionRecord) : List (String × List RevisionRecord) :=
  let keys := jsObjectKeys (insertOrderKeys (rows.map (·.version)))
  keys.map (fun k =>
    (k, stableSortBy (fun a b => a.installed_rank ≤ b.installed_rank)
          (rows.filter (fun r => r.version = k))))

/-- `_getObjects`: `SELECT *` (failing when the table does not exist),
then group by version. -/
def _getObjects (db : Ledger) : Except String (List (String × List RevisionRecord)) :=
  match db with
  | none => .error "table does not exist"
  | some rows => .ok (groupRows rows)

/-! ## SchemaManager (`lib/schema.js`) -/

/-- The five fields `revision()` picks out of each ledger row. -/
structure MigItem where
  script : String
  description : String
  execution_time : Nat
  status : Nat
  reason : Option String
deriving Repr, DecidableEq

/-- The `_.pick` projection applied by `revision()`. -/
def pickItem (r : RevisionRecord) : MigItem :=
  ⟨r.script, r.description, r.execution_time, r.status, r.reason⟩

/-- The result object of `revision()`. -/
structure Revision where
  version : String
  migrations : List MigItem
deriving Repr, DecidableEq

/-- One iteration of the `_.each` loop in `revision()`: a group
containing a `status = 0` record (lodash `_.find(tmp, {status: 0})`)
overwrites both the current version and the whole `migrations`
accumulator with its own picked records; a group with no success
appends its picked records to the accumulator. -/
def revisionStep (st : String × List MigItem)
    (kv : String × List RevisionRecord) : String × List MigItem :=
  let tmp := kv.2.map pickItem
  if tmp.any (fun t => t.status = 0) then (kv.1, tmp)
  else (st.1, st.2 ++ tmp)

/-- The accumulation loop of `revision()` over the version groups, in
group-key order, starting from `("Unknown", [])`. -/
def revisionOf (objects : List (String × List RevisionRecord)) : Revision :=
  let z := objects.foldl revisionStep ("Unknown", [])
  ⟨z.1, z.2⟩

/-- `revision()` applied to the outcome of the ledger read: any read
failure is caught and reported as the Unknown state. -/
def revisionFromRead (r : Except String (List (String × List RevisionRecord))) : Revision :=
  match r with
  | .error _ => ⟨"Unknown", []⟩
  | .ok objects => revisionOf objects

/-- `SchemaManager.revision()`. -/
def revision (db : Ledger) : Revision :=
  revisionFromRead (_getObjects db)

/-- `SchemaManager.clean()`: drop the ledger table. -/
def clean (db : Ledger) : Ledger :=
  _dropObjects db

/-- `SchemaManager.baseline(version, description)`: validate the
version (synchronous throw on failure), ensure the table exists, clear
it, and insert one synthetic success record. -/
def baseline (host : String) (now : Nat) (db : Ledger)
    (baseVersion : String) (description : Option String) : Except String Ledger :=
  match parseVersion baseVersion with
  | .error e => .error e
  | .ok version =>
    match _deleteObjects (_createObjects db) with
    | .error e => .error e
    | .ok cleared =>
      match _addObject (cleared.getD [])
          { version := version
            script := "baseline"
            description := if jsFalsy description then "Base version"
                           else description.getD ""
            type := "SQL"
            installed_by := host
            installed_rank := 1
            installation_time := now
            execution_time := 0
            status := 0
            reason := none } with
      | .error e => .error e
      | .ok rows => .ok (some rows)

/-! ## Migration step execution (`_migration` in `lib/schema.js`) -/

/-- The external collaborators of a migration step: the local host
identifier (`os.hostname()`), the transaction executor for each script
kind (file read + `trx.schema.raw` for SQL, `require` + invocation for
Node.js — a load failure is thrown inside the transaction and therefore
rejects it), and the wall time a script's transaction consumes. -/
structure Env where
  host : String
  execSql : Migration → Except String Unit
  execJs : Migration → Except String Unit
  elapsed : Migration → Nat

/-- The body of the `transport.transaction` callback in `_migration`:
dispatch on the migration `type`; an unrecognized type throws inside
the transaction (and is therefore caught and recorded like any other
execution failure). -/
def transactionBody (env : Env) (migration : Migration) : Except String Unit :=
  if migration.type = "SQL" then env.execSql migration
  else if migration.type = "Node.js" then env.execJs migration
  else .error ("Invalid migration script type, expected type to be " ++
    "SQL / Node.js but got: " ++ migration.type)

/-- `migration.rank || 1`: an absent rank — and, by JavaScript
falsiness, a rank of `0` — becomes `1`. -/
def rankOr1 : Option Nat → Nat
  | none => 1
  | some 0 => 1
  | some k => k

/-- Outcome of one `_migration` call: the ledger rows after the step,
the clock after the step, and the rejection surfaced to the caller (if
any).  An error is surfaced only after the `finally` block has run, so
`db` already reflects the recorded attempt. -/
structure StepResult where
  db : List RevisionRecord
  now : Nat
  err : Option String
deriving Repr, DecidableEq

/-- `_migration` from `lib/schema.js`: guard the execution path (a
falsy `path` throws before the transaction, recording nothing); run the
transaction; on failure remember `status = 1` and the failure reason
and prepare a surfaced error; in `finally`, unconditionally record the
attempt with `installed_by` the host identifier, `installed_rank` the
assigned rank (defaulted to 1), `installation_time` the start time and
`execution_time` the elapsed time — then let the surfaced error (or a
failure of the record write itself, which replaces it) propagate. -/
def _migration (env : Env) (now : Nat) (db : List RevisionRecord)
    (migration : Migration) : StepResult :=
  if migration.path = "" then
    ⟨db, now, some "Migration was called with no execution path."⟩
  else
    let start := now
    let outcome := transactionBody env migration
    let endT := now + env.elapsed migration
    let status : Nat := match outcome with | .ok _ => 0 | .error _ => 1
    let reason : Option String := match outcome with
      | .ok _ => none
      | .error e => some e
    let err : Option String := match outcome with
      | .ok _ => none
      | .error _ => some ("Migration (" ++ migration.version ++ "/" ++
          migration.script ++ ") failed. Run `mysql-migrate info` for more details.")
    match _addObject db
        { version := migration.version
          script := migration.script
          description := migration.description
          type := migration.type
          installed_by := env.host
          installed_rank := rankOr1 migration.rank
          installation_time := start
          execution_time := endT - start
          status := status
          reason := reason } with
    | .ok db2 => ⟨db2, endT, err⟩
    | .error e2 => ⟨db, endT, some e2⟩

/-! ## `SchemaManager.migrate` (`lib/schema.js`) -/

/-- The inner `Promise.map(step, ..., {concurrency: 1})` of `migrate`:
the scripts of one version group are executed one at a time in
discovery order, each first mutated with `rank = idx + 1`; a rejection
stops the remaining (not yet started) scripts of the group. -/
def runGroup (env : Env) : List Migration → Nat → Nat → List RevisionRecord → StepResult
  | [], _, now, db => ⟨db, now, none⟩
  | m :: rest, idx, now, db =>
    let r := _migration env now db { m with rank := some (idx + 1) }
    match r.err with
    | some e => ⟨r.db, r.now, some e⟩
    | none => runGroup env rest (idx + 1) r.now r.db

/-- The outer `Promise.mapSeries(steps, ...)` of `migrate`: version
groups run strictly one after another; the first rejected group aborts
every remaining group. -/
def migrateSteps (env : Env) : List (List Migration) → Nat → List RevisionRecord → StepResult
  | [], now, db => ⟨db, now, none⟩
  | g :: gs, now, db =>
    let r := runGroup env g 0 now db
    match r.err with
    | some e => ⟨r.db, r.now, some e⟩
    | none => migrateSteps env gs r.now r.db

/-- Result of `SchemaManager.migrate`: the ledger afterwards and the
rejection surfaced to the caller (if any). -/
structure MigrateResult where
  db : Ledger
  err : Option String
deriving Repr, DecidableEq

/-- `SchemaManager.migrate(directory, targetVersion)`: compute
`revision()`; reject with the no-baseline error when the current
version is (case-insensitively) `"Unknown"`; otherwise invoke
`Util.discovery` passing a single options object — which the positional
`discovery(directory, ...)` of `lib/utils.js` receives in its
`directory` parameter and rejects as a non-string — and only on a
successful discovery run the version groups through `migrateSteps`. -/
def migrate (env : Env) (now : Nat) (db0 : Ledger) (listing : List String)
    (directory : String) (targetVersion : Option String) : MigrateResult :=
  let rev := revision db0
  if (rev.version.toList.map Char.toLower).asString == "unknown" then
    ⟨db0, some ("Could not determine schema revision before running migration scripts. " ++
      "It is possible that `baseline` was never executed or database is currently not reachable.")⟩
  else
    match discoveryJs
        (.obj { directory := directory
                targetVersion := targetVersion
                baseVersion := some rev.version
                baseVersionObjects := some (rev.migrations.map (·.script)) })
        none none none listing with
    | .error e => ⟨db0, some e⟩
    | .ok steps =>
      if steps.isEmpty then ⟨db0, none⟩
      else
        let r := migrateSteps env steps now (db0.getD [])
        ⟨some r.db, r.err⟩

/-! ## `SchemaManager.repair` (`lib/schema.js`) -/

/-- The matching stage of `repair`: flatten the grouped ledger rows,
keep those with `status > 0`, and for each select the first discovered
descriptor with the same basename (`none` when no script matches —
that failure is silently left unresolved).  Each matched descriptor is
then re-executed through `_migration` exactly as discovered, i.e. with
`rank` still absent. -/
def repairTargets (objects : List (String × List RevisionRecord))
    (groups : List (List Migration)) : List (RevisionRecord × Option Migration) :=
  let fixUs := ((objects.map (·.2)).flatten).filter (fun o => o.status > 0)
  let scripts := groups.flatten
  fixUs.map (fun fixIt => (fixIt, scripts.find? (fun s => s.script == fixIt.script)))

/-- The discovery call that `repair` makes before any matching:
`Util.discovery({directory, logger})` — again a single options object
handed to the positional `discovery(directory, ...)` signature.  Every
later stage of `repair` (flattening, matching via `repairTargets`,
re-execution of each match through `_migration` with unbounded
`Promise.map` concurrency) runs only on the result of this call. -/
def repairDiscoveryCall (directory : String) (listing : List String) :
    Except String (List (List Migration)) :=
  discoveryJs (.obj { directory := directory }) none none none listing

/-! ## Definitions taken from the specification's words

The definitions in this section are NOT translations of the source;
they re-state, in Lean, what the natural-language specification says,
and are compared with the source-derived definitions above by the
refinement theorems below. -/

/-- Spec side: a version string is well formed when it is a non-empty
dot-separated list of non-empty digit components. -/
def validVersionStr (s : String) : Bool :=
  s ≠ "" && (jsSplit s '.').all (fun p => p ≠ "" && p.toList.all Char.isDigit)

/-- Spec side: the integer tuple denoted by a version string. -/
def versionParts (s : String) : List Nat :=
  (jsSplit s '.').map (fun p => (charsToNat? p.toList).getD 0)

/-- Spec side: compare two equal-length integer tuples element-wise
left to right; the first unequal pair decides. -/
def specCmpNat : List Nat → List Nat → Int
  | a :: as, b :: bs =>
    if a < b then -1 else if b < a then 1 else specCmpNat as bs
  | _, _ => 0

/-- Spec side: pad a tuple with trailing zero groups to length `n`. -/
def specPadNat (l : List Nat) (n : Nat) : List Nat :=
  l ++ List.replicate (n - l.length) 0

/-- Spec side: version comparison per the specification — pad the
shorter tuple with trailing zero groups to equal length, then compare
element-wise left to right. -/
def specPadCompare (x y : List Nat) : Int :=
  specCmpNat (specPadNat x (max x.length y.length))
             (specPadNat y (max x.length y.length))

/-- Spec side: a version group annotated with ranks — each script
paired with its 1-based position within the group. -/
def rankAnnotated (g : List Migration) : List Migration :=
  g.enum.map (fun p => { p.2 with rank := some (p.1 + 1) })

/-- Spec side: the sequential execution queue of `migrate` — the
version groups in order, scripts within a group in discovery order,
each carrying its 1-based in-group rank. -/
def specQueue (groups : List (List Migration)) : List Migration :=
  (groups.map rankAnnotated).flatten

/-- Spec side: run a queue of migration steps strictly sequentially
(concurrency one); every step that runs is recorded by `_migration`
before the next starts, and the first surfaced failure aborts the whole
remaining queue. -/
def specRun (env : Env) : List Migration → Nat → List RevisionRecord → StepResult
  | [], now, db => ⟨db, now, none⟩
  | m :: rest, now, db =>
    let r := _migration env now db m
    match r.err with
    | some e => ⟨r.db, r.now, some e⟩
    | none => specRun env rest r.now r.db

/-- Whether a version group contains a successful record. -/
def groupHasSuccess (g : List RevisionRecord) : Bool :=
  g.any (fun r => r.status = 0)

/-- The last group, in grouping order, that contains a success. -/
def specLastSuccess (objects : List (String × List RevisionRecord)) :
    Option (String × List RevisionRecord) :=
  (objects.filter (fun kv => groupHasSuccess kv.2)).getLast?

/-- The maximal trailing run of groups with no success. -/
def specTrailingNoSuccess (objects : List (String × List RevisionRecord)) :
    List (String × List RevisionRecord) :=
  (objects.reverse.takeWhile (fun kv => !groupHasSuccess kv.2)).reverse

/-- What `revision()` actually computes, described directly: the
current version is the key of the LAST group in grouping order that
contains a success, and `migrations` is that group's picked records
followed by the picked records of the no-success groups that come
after it; with no success anywhere the version is `"Unknown"` and
`migrations` collects every group's picked records. -/
def specRevisionOf (objects : List (String × List RevisionRecord)) : Revision :=
  match specLastSuccess objects with
  | some kv =>
    ⟨kv.1, kv.2.map pickItem ++
      (specTrailingNoSuccess objects).flatMap (fun kv => kv.2.map pickItem)⟩
  | none => ⟨"Unknown", objects.flatMap (fun kv => kv.2.map pickItem)⟩

/-! ## Concrete fixtures used by the closed theorems below -/

/-- A failed ledger row at version 1 (no success ever recorded at 1). -/
def failedRow1 : RevisionRecord :=
  { version := "1", description := "a", type := "SQL", script := "V1__a.sql",
    installed_rank := 1, installed_by := "host1", installation_time := 0,
    execution_time := 5, status := 1, reason := some "syntax error" }

/-- A successful ledger row at version 2. -/
def successRow2 : RevisionRecord :=
  { version := "2", description := "b", type := "SQL", script := "V2__b.sql",
    installed_rank := 1, installed_by := "host1", installation_time := 9,
    execution_time := 3, status := 0, reason := none }

/-- A later, successful re-execution of the same script/version as
`failedRow1`. -/
def repairedRow1 : RevisionRecord :=
  { version := "1", description := "a", type := "SQL", script := "V1__a.sql",
    installed_rank := 1, installed_by := "host1", installation_time := 50,
    execution_time := 4, status := 0, reason := none }

/-- The synthetic record `baseline("1")` writes. -/
def baselineRow : RevisionRecord :=
  { version := "1", description := "Base version", type := "SQL",
    script := "baseline", installed_rank := 1, installed_by := "host1",
    installation_time := 0, execution_time := 0, status := 0, reason := none }

/-- A concrete environment: every script succeeds except `V2__b.sql`,
every transaction takes 10 ms. -/
def sampleEnv : Env :=
  { host := "host1"
    execSql := fun m => if m.script = "V2__b.sql" then .error "syntax error" else .ok ()
    execJs := fun _ => .ok ()
    elapsed := fun _ => 10 }

/-- The descriptor `discovery` produces for `migrations/V1__a.sql`. -/
def mV1a : Migration :=
  { script := "V1__a.sql", path := "migrations/V1__a.sql", type := "SQL",
    version := "1", description := "a", rank := none }

/-! ## Claim theorems -/

/-- C7: `revision()` never throws — it is a total function of the read
outcome — and whenever the ledger read fails (in particular after
`clean()` has dropped the table) or the ledger is empty, it returns
version `"Unknown"` and an empty migrations list. -/
theorem revision_unknown_on_empty_or_failed_read :
    (∀ e, revisionFromRead (.error e) = ⟨"Unknown", []⟩)
    ∧ revision none = ⟨"Unknown", []⟩
    ∧ revision (some []) = ⟨"Unknown", []⟩
    ∧ (∀ db, revision (clean db) = ⟨"Unknown", []⟩) :=
  ⟨fun _ => rfl, rfl, by decide, fun _ => rfl⟩

/-- C8: the worked examples of `parseVersion` hold, and `""` and
`"a.b"` are rejected — but `".5"` is NOT rejected: the validation regex
`/^\d?([\d\.]+)?\d$/` matches it (optional leading digit absent, the
middle group eats the dot), and `parseInt("")` then yields `NaN`, so the
call returns `"NaN.5"` instead of throwing the `InvalidVersion` error
its own documentation and error message promise for a leading dot. -/
theorem parseVersion_accepts_leading_dot :
    parseVersion "1" = .ok "1"
    ∧ parseVersion "001" = .ok "1"
    ∧ parseVersion "5_2" = .ok "5.2"
    ∧ parseVersion "V5.2" = .ok "5.2"
    ∧ (parseVersion "").toOption = none
    ∧ (parseVersion "a.b").toOption = none
    ∧ parseVersion ".5" = .ok "NaN.5" := by
  refine ⟨by decide, by decide, by decide, by decide, by decide, by decide, by decide⟩

/-- C3 counterexample: writing a record whose (script, version) key is
already present does NOT update the existing row — `_addObject` is a
plain `INSERT`, so the ledger ends with two rows for the key
`("V1__a.sql", "1")` and the original failed row keeps `status = 1`. -/
theorem addObject_duplicate_key_cex :
    _addObject [failedRow1] repairedRow1 = .ok [failedRow1, repairedRow1]
    ∧ (([failedRow1, repairedRow1].filter
          (fun r => r.script = "V1__a.sql" && r.version = "1")).length = 2)
    ∧ failedRow1.status = 1
    ∧ repairedRow1.status = 0 := by
  refine ⟨by decide, by decide, by decide, by decide⟩

/-- C3 amended: `_addObject` always appends a fresh row (after
re-validating the version); there is no update-in-place path, and the
table `_createObjects` creates has no unique (script, version)
constraint, so a repair re-execution adds a second row for the same
key instead of flipping the old one. -/
theorem addObject_always_inserts (db : List RevisionRecord)
    (obj : RevisionRecord) (v : String)
    (h : parseVersion obj.version = .ok v) :
    _addObject db obj = .ok (db ++ [{ obj with version := v }]) := by
  unfold _addObject _parseObject
  rw [h]
  rfl

/-- Witness for `addObject_always_inserts` at a concrete row. -/
theorem addObject_always_inserts_witness :
    _addObject [failedRow1] repairedRow1
      = .ok ([failedRow1] ++ [{ repairedRow1 with version := "1" }]) :=
  addObject_always_inserts [failedRow1] repairedRow1 "1" (by decide)

/-- C4 counterexample: with `targetVersion = "2"`, the entry
`V1__a.sql` parses to version `"1"`, which is different from the target
— yet discovery keeps it, because the code only drops entries whose
version is strictly GREATER than the target. -/
theorem discovery_keeps_lower_than_target_cex :
    discovery "migrations" (some "2") none none ["V1__a.sql"] = .ok [[mV1a]]
    ∧ compareVersion (some "1") (some "2") ≠ 0 := by
  refine ⟨by decide, by decide⟩

/-- C5 (code bug): `migrate` does compute `revision()` first and fails
with the no-baseline error when the version is `"Unknown"` without
touching the ledger — but in the non-Unknown case it passes a single
options object to the positional `discovery(directory, ...)` of
`lib/utils.js`, whose `_.isString(directory)` guard rejects it, so
`migrate` always fails with the directory-argument error and never
executes a migration step. -/
theorem migrate_passes_options_object_to_positional_discovery :
    migrate sampleEnv 5 (some [baselineRow]) ["V2__b.sql"] "migrations" none
      = ⟨some [baselineRow], some "`directory` argument must be a string"⟩
    ∧ migrate sampleEnv 0 (some []) ["V2__b.sql"] "migrations" none
      = ⟨some [], some ("Could not determine schema revision before running migration scripts. " ++
          "It is possible that `baseline` was never executed or database is currently not reachable.")⟩ := by
  refine ⟨by decide, by decide⟩

/-- C1 counterexample: in a ledger with a failed attempt at version 1
(which never achieved a success) and a success at version 2,
`revision()` reports version `"2"` but its `migrations` list does NOT
contain the version-1 failure — the accumulator is overwritten when the
success group is reached, so the claimed "every failure record of a
never-successful version is folded in" fails. -/
theorem revision_drops_prior_failures_cex :
    revision (some [failedRow1, successRow2]) = ⟨"2", [pickItem successRow2]⟩
    ∧ failedRow1.status ≠ 0
    ∧ groupHasSuccess [failedRow1] = false
    ∧ pickItem failedRow1 ∉ (revision (some [failedRow1, successRow2])).migrations := by
  refine ⟨by decide, by decide, by decide, by decide⟩

/-- The descriptor `discovery` produces for `migrations/V2__b.sql`
(the script `sampleEnv` makes fail). -/
def mV2b : Migration :=
  { script := "V2__b.sql", path := "migrations/V2__b.sql", type := "SQL",
    version := "2", description := "b", rank := none }

/-- C6: every migration step that starts executing (its descriptor has
a path, and its version re-validates, as every discovered or baselined
version does) appends exactly one `RevisionRecord` to the ledger with
`installed_by` the host identifier, `installed_rank` the assigned rank,
`installation_time` the start time and `execution_time` = end − start —
on success with `status = 0` and no surfaced error, on failure with
`status = 1`, the failure reason, and a surfaced error; and whenever an
error is surfaced the record is already in the resulting ledger
(record-then-report). -/
theorem migration_records_every_attempt (env : Env) (now : Nat)
    (db : List RevisionRecord) (migration : Migration)
    (hpath : migration.path ≠ "")
    (hver : parseVersion migration.version = .ok migration.version) :
    ∃ rec : RevisionRecord,
      (_migration env now db migration).db = db ++ [rec]
      ∧ rec.installed_by = env.host
      ∧ rec.installed_rank = rankOr1 migration.rank
      ∧ rec.installation_time = now
      ∧ rec.execution_time = (now + env.elapsed migration) - now
      ∧ (∀ u, transactionBody env migration = .ok u →
          rec.status = 0 ∧ rec.reason = none
          ∧ (_migration env now db migration).err = none)
      ∧ (∀ e, transactionBody env migration = .error e →
          rec.status = 1 ∧ rec.reason = some e
          ∧ (_migration env now db migration).err
              = some ("Migration (" ++ migration.version ++ "/" ++ migration.script
                  ++ ") failed. Run `mysql-migrate info` for more details."))
      ∧ (∀ e, (_migration env now db migration).err = some e →
          rec ∈ (_migration env now db migration).db) := by
  cases h : transactionBody env migration with
  | ok u =>
    refine ⟨{ version := migration.version, description := migration.description,
              type := migration.type, script := migration.script, checksum := none,
              installed_rank := rankOr1 migration.rank, installed_by := env.host,
              installation_time := now,
              execution_time := (now + env.elapsed migration) - now,
              status := 0, reason := none },
            ?_, rfl, rfl, rfl, rfl, ?_, ?_, ?_⟩
    · simp only [_migration, if_neg hpath, h, _addObject, _parseObject, hver, Except.map]
    · exact fun _ _ => ⟨rfl, rfl, by simp only [_migration, if_neg hpath, h, _addObject,
        _parseObject, hver, Except.map]⟩
    · intro e he
      exact absurd he (by simp)
    · intro e he
      simp only [_migration, if_neg hpath, h, _addObject, _parseObject, hver,
        Except.map] at he
      exact Option.noConfusion he
  | error e0 =>
    refine ⟨{ version := migration.version, description := migration.description,
              type := migration.type, script := migration.script, checksum := none,
              installed_rank := rankOr1 migration.rank, installed_by := env.host,
              installation_time := now,
              execution_time := (now + env.elapsed migration) - now,
              status := 1, reason := some e0 },
            ?_, rfl, rfl, rfl, rfl, ?_, ?_, ?_⟩
    · simp only [_migration, if_neg hpath, h, _addObject, _parseObject, hver, Except.map]
    · intro u hu
      exact absurd hu (by simp)
    · intro e he
      obtain rfl : e0 = e := Except.error.inj he
      exact ⟨rfl, rfl, by simp only [_migration, if_neg hpath, h, _addObject,
        _parseObject, hver, Except.map]⟩
    · intro e he
      simp only [_migration, if_neg hpath, h, _addObject, _parseObject, hver, Except.map]
      exact List.mem_append_right _ (List.mem_singleton_self _)

/-- Witness for `migration_records_every_attempt`: the failing SQL step
`V2__b.sql` under `sampleEnv`, started at time 100 on an empty ledger. -/
theorem migration_records_every_attempt_witness :
    ∃ rec : RevisionRecord,
      (_migration sampleEnv 100 [] mV2b).db = [] ++ [rec]
      ∧ rec.installed_by = sampleEnv.host
      ∧ rec.installed_rank = rankOr1 mV2b.rank
      ∧ rec.installation_time = 100
      ∧ rec.execution_time = (100 + sampleEnv.elapsed mV2b) - 100
      ∧ (∀ u, transactionBody sampleEnv mV2b = .ok u →
          rec.status = 0 ∧ rec.reason = none
          ∧ (_migration sampleEnv 100 [] mV2b).err = none)
      ∧ (∀ e, transactionBody sampleEnv mV2b = .error e →
          rec.status = 1 ∧ rec.reason = some e
          ∧ (_migration sampleEnv 100 [] mV2b).err
              = some ("Migration (" ++ mV2b.version ++ "/" ++ mV2b.script
                  ++ ") failed. Run `mysql-migrate info` for more details."))
      ∧ (∀ e, (_migration sampleEnv 100 [] mV2b).err = some e →
          rec ∈ (_migration sampleEnv 100 [] mV2b).db) :=
  migration_records_every_attempt sampleEnv 100 [] mV2b (by decide) (by decide)

/-- C10 (code bug): the matching stage of `repair` does pair each
failed record with the freshly discovered descriptor (which carries no
rank), and `_migration` on such a descriptor writes a record with
`installed_rank = 1` whose version and description come from the
current filename, ignoring the failed record's own `installed_rank` (7
here) — but `repair` never reaches that stage, because its discovery
call passes an options object to the positional `discovery` signature
and is rejected. -/
theorem repair_options_object_and_rank_one :
    repairDiscoveryCall "migrations" ["V1__a.sql"]
      = .error "`directory` argument must be a string"
    ∧ repairTargets (groupRows [{ failedRow1 with installed_rank := 7 }]) [[mV1a]]
        = [({ failedRow1 with installed_rank := 7 }, some mV1a)]
    ∧ mV1a.rank = none
    ∧ (_migration sampleEnv 100 [] mV1a).db
        = [{ version := "1", description := "a", type := "SQL", script := "V1__a.sql",
             checksum := none, installed_rank := 1, installed_by := "host1",
             installation_time := 100, execution_time := 10, status := 0,
             reason := none }] := by
  refine ⟨by decide, by decide, by decide, by decide⟩

/-! ## Sequencing of `migrate`'s execution stage (C2) -/

theorem specRun_append (env : Env) (q1 q2 : List Migration) :
    ∀ (now : Nat) (db : List RevisionRecord),
    specRun env (q1 ++ q2) now db =
      (match (specRun env q1 now db).err with
       | some _ => specRun env q1 now db
       | none => specRun env q2 (specRun env q1 now db).now (specRun env q1 now db).db) := by
  induction q1 with
  | nil => intro now db; rfl
  | cons m rest ih =>
    intro now db
    show specRun env (m :: (rest ++ q2)) now db = _
    simp only [specRun]
    cases h : (_migration env now db m).err with
    | some e => simp only [h]
    | none => simp only [h, ih]

theorem runGroup_eq_specRun (env : Env) (g : List Migration) :
    ∀ (idx now : Nat) (db : List RevisionRecord),
    runGroup env g idx now db
      = specRun env ((List.enumFrom idx g).map
          (fun p => { p.2 with rank := some (p.1 + 1) })) now db := by
  induction g with
  | nil => intro idx now db; rfl
  | cons m rest ih =>
    intro idx now db
    simp only [List.enumFrom, List.map_cons, runGroup, specRun]
    cases h : (_migration env now db { m with rank := some (idx + 1) }).err with
    | some e => simp only [h]
    | none => simp only [h]; exact ih (idx + 1) _ _

/-- C2: the execution stage of `migrate` runs its version groups
strictly sequentially — it is extensionally equal to running the single
flattened queue `specQueue groups` (groups in order, scripts within a
group in discovery order, each annotated with its 1-based in-group
rank) one step at a time, where each step's record is persisted by
`_migration` before the next step starts and the first surfaced failure
aborts the entire remaining queue while keeping everything already
recorded. -/
theorem migrate_steps_sequential_rank_refinement (env : Env)
    (groups : List (List Migration)) :
    ∀ (now : Nat) (db : List RevisionRecord),
    migrateSteps env groups now db = specRun env (specQueue groups) now db := by
  induction groups with
  | nil => intro now db; rfl
  | cons g gs ih =>
    intro now db
    have hq : specQueue (g :: gs) = rankAnnotated g ++ specQueue gs := by
      simp [specQueue]
    have hg : runGroup env g 0 now db = specRun env (rankAnnotated g) now db := by
      rw [runGroup_eq_specRun]
      rfl
    rw [hq, specRun_append, ← hg]
    simp only [migrateSteps]
    cases h : (runGroup env g 0 now db).err with
    | some e => simp only [h]; rw [← h]
    | none => simp only [h]; exact ih _ _

/-! ## Characterization of `revision()` (C1) -/

theorem any_pick_eq_groupHasSuccess (g : List RevisionRecord) :
    ((g.map pickItem).any (fun t => t.status = 0)) = groupHasSuccess g := by
  induction g with
  | nil => rfl
  | cons r rs ih =>
    have hst : (pickItem r).status = r.status := rfl
    simp only [List.map_cons, List.any_cons, hst, groupHasSuccess] at ih ⊢
    rw [ih]

theorem takeWhile_append_left {α} (p : α → Bool) (l l' : List α)
    (h : ∃ x ∈ l, p x = false) : (l ++ l').takeWhile p = l.takeWhile p := by
  induction l with
  | nil => rcases h with ⟨x, hx, -⟩; cases hx
  | cons a as ih =>
    rcases h with ⟨x, hx, hpx⟩
    rw [List.cons_append]
    cases hpa : p a with
    | false => simp [List.takeWhile_cons, hpa]
    | true =>
      have hrest : ∃ y ∈ as, p y = false := by
        rcases List.mem_cons.mp hx with rfl | hmem
        · rw [hpa] at hpx; cases hpx
        · exact ⟨x, hmem, hpx⟩
      simp [List.takeWhile_cons, hpa, ih hrest]

theorem takeWhile_append_all {α} (p : α → Bool) (l l' : List α)
    (h : ∀ x ∈ l, p x = true) : (l ++ l').takeWhile p = l ++ l'.takeWhile p := by
  induction l with
  | nil => simp
  | cons a as ih =>
    have hpa := h a (List.mem_cons_self a as)
    rw [List.cons_append]
    simp [List.takeWhile_cons, hpa,
      ih (fun x hx => h x (List.mem_cons_of_mem a hx))]

theorem specTrailing_cons_of_any (g : String × List RevisionRecord)
    (rest : List (String × List RevisionRecord))
    (h : rest.any (fun kv => groupHasSuccess kv.2) = true) :
    specTrailingNoSuccess (g :: rest) = specTrailingNoSuccess rest := by
  unfold specTrailingNoSuccess
  have hex : ∃ x ∈ rest.reverse, (!groupHasSuccess x.2) = false := by
    rcases List.any_eq_true.mp h with ⟨kv, hmem, hkv⟩
    exact ⟨kv, List.mem_reverse.mpr hmem, by simp_all⟩
  rw [List.reverse_cons, takeWhile_append_left _ _ _ hex]

theorem specTrailing_cons_of_none (g : String × List RevisionRecord)
    (rest : List (String × List RevisionRecord))
    (h : rest.any (fun kv => groupHasSuccess kv.2) = false) :
    specTrailingNoSuccess (g :: rest)
      = (if groupHasSuccess g.2 then rest else g :: rest) := by
  unfold specTrailingNoSuccess
  have hall : ∀ x ∈ rest.reverse, (!groupHasSuccess x.2) = true := by
    intro x hx
    have hx' := List.mem_reverse.mp hx
    have hfalse : groupHasSuccess x.2 = false := by
      cases hgx : groupHasSuccess x.2 with
      | false => rfl
      | true =>
        have hany : rest.any (fun kv => groupHasSuccess kv.2) = true :=
          List.any_eq_true.mpr ⟨x, hx', hgx⟩
        rw [h] at hany; cases hany
    simp [hfalse]
  rw [List.reverse_cons, takeWhile_append_all _ _ _ hall]
  cases hgs : groupHasSuccess g.2 with
  | true => simp [List.takeWhile_cons, hgs]
  | false => simp [List.takeWhile_cons, hgs]

theorem getLast?_ne_none_of_ne_nil {α} (l : List α) (h : l ≠ []) :
    l.getLast? ≠ none := by
  induction l with
  | nil => cases h rfl
  | cons a as ih =>
    cases as with
    | nil => simp
    | cons b bs =>
      rw [List.getLast?_cons_cons]
      exact ih (by simp)

theorem specLast_cons_of_any (g : String × List RevisionRecord)
    (rest : List (String × List RevisionRecord))
    (h : rest.any (fun kv => groupHasSuccess kv.2) = true) :
    specLastSuccess (g :: rest) = specLastSuccess rest
      ∧ specLastSuccess rest ≠ none := by
  have hne : rest.filter (fun kv => groupHasSuccess kv.2) ≠ [] := by
    rcases List.any_eq_true.mp h with ⟨kv, hmem, hkv⟩
    intro hnil
    have hm : kv ∈ rest.filter (fun kv => groupHasSuccess kv.2) :=
      List.mem_filter.mpr ⟨hmem, hkv⟩
    rw [hnil] at hm; cases hm
  unfold specLastSuccess
  refine ⟨?_, getLast?_ne_none_of_ne_nil _ hne⟩
  rw [List.filter_cons]
  cases hgs : groupHasSuccess g.2 with
  | false => simp
  | true =>
    simp only [cond_true]
    cases hfr : rest.filter (fun kv => groupHasSuccess kv.2) with
    | nil => exact absurd hfr hne
    | cons b bs => exact List.getLast?_cons_cons ..

theorem specLast_none_iff (l : List (String × List RevisionRecord)) :
    specLastSuccess l = none ↔ l.any (fun kv => groupHasSuccess kv.2) = false := by
  unfold specLastSuccess
  constructor
  · intro h
    cases hany : l.any (fun kv => groupHasSuccess kv.2) with
    | false => rfl
    | true =>
      rcases List.any_eq_true.mp hany with ⟨kv, hmem, hkv⟩
      have hne : l.filter (fun kv => groupHasSuccess kv.2) ≠ [] := by
        intro hnil
        have hm : kv ∈ l.filter (fun kv => groupHasSuccess kv.2) :=
          List.mem_filter.mpr ⟨hmem, hkv⟩
        rw [hnil] at hm; cases hm
      exact absurd h (getLast?_ne_none_of_ne_nil _ hne)
  · intro h
    have hnil : l.filter (fun kv => groupHasSuccess kv.2) = [] := by
      cases hfr : l.filter (fun kv => groupHasSuccess kv.2) with
      | nil => rfl
      | cons b bs =>
        have hb : b ∈ l.filter (fun kv => groupHasSuccess kv.2) := by
          rw [hfr]; exact List.mem_cons_self b bs
        rcases List.mem_filter.mp hb with ⟨hbl, hbs⟩
        have hany : l.any (fun kv => groupHasSuccess kv.2) = true :=
          List.any_eq_true.mpr ⟨b, hbl, hbs⟩
        rw [h] at hany; cases hany
    rw [hnil]; rfl

theorem filter_success_eq_nil (l : List (String × List RevisionRecord))
    (h : l.any (fun kv => groupHasSuccess kv.2) = false) :
    l.filter (fun kv => groupHasSuccess kv.2) = [] := by
  cases hfr : l.filter (fun kv => groupHasSuccess kv.2) with
  | nil => rfl
  | cons b bs =>
    have hb : b ∈ l.filter (fun kv => groupHasSuccess kv.2) := by
      rw [hfr]; exact List.mem_cons_self b bs
    rcases List.mem_filter.mp hb with ⟨hbl, hbs⟩
    have hany : l.any (fun kv => groupHasSuccess kv.2) = true :=
      List.any_eq_true.mpr ⟨b, hbl, hbs⟩
    rw [h] at hany; cases hany

theorem revisionFold_char (objects : List (String × List RevisionRecord)) :
    ∀ (v : String) (acc : List MigItem),
    objects.foldl revisionStep (v, acc) =
      (match specLastSuccess objects with
       | some kv =>
         (kv.1, kv.2.map pickItem ++
           (specTrailingNoSuccess objects).flatMap (fun kv => kv.2.map pickItem))
       | none => (v, acc ++ objects.flatMap (fun kv => kv.2.map pickItem))) := by
  induction objects with
  | nil =>
    intro v acc
    simp [specLastSuccess]
  | cons g rest ih =>
    intro v acc
    rw [List.foldl_cons]
    have hstep : revisionStep (v, acc) g =
        (if groupHasSuccess g.2 then (g.1, g.2.map pickItem)
         else (v, acc ++ g.2.map pickItem)) := by
      simp only [revisionStep, any_pick_eq_groupHasSuccess]
    cases hany : rest.any (fun kv => groupHasSuccess kv.2) with
    | true =>
      obtain ⟨hlast, hsome⟩ := specLast_cons_of_any g rest hany
      rw [hstep, hlast, specTrailing_cons_of_any g rest hany]
      cases hsl : specLastSuccess rest with
      | none => exact absurd hsl hsome
      | some kv =>
        cases hgs : groupHasSuccess g.2 with
        | true =>
          rw [if_pos rfl, ih]
          simp only [hsl]
        | false =>
          rw [if_neg (by simp), ih]
          simp only [hsl]
    | false =>
      have hslrest : specLastSuccess rest = none := (specLast_none_iff rest).mpr hany
      have hnil := filter_success_eq_nil rest hany
      rw [hstep, specTrailing_cons_of_none g rest hany]
      cases hgs : groupHasSuccess g.2 with
      | true =>
        have hslcons : specLastSuccess (g :: rest) = some g := by
          unfold specLastSuccess
          rw [List.filter_cons]
          simp [hgs, hnil]
        rw [if_pos rfl, if_pos rfl, ih, hslcons]
        simp only [hslrest]
      | false =>
        have hslcons : specLastSuccess (g :: rest) = none := by
          unfold specLastSuccess
          rw [List.filter_cons]
          simp [hgs, hnil]
        rw [if_neg (by simp), if_neg (by simp), ih, hslcons]
        simp only [hslrest, List.flatMap_cons, List.append_assoc]

/-- C1 (amended): `revision()` on a readable ledger is characterized by
`specRevisionOf` over the grouped rows — the current version is the
LAST group in the ledger's JavaScript grouping order (array-index-like
version keys ascending first, then first-appearance order) that
contains a `status = 0` record, and `migrations` is that group's picked
records followed by the no-success groups that come after it; groups
before the last success (including their failures) are discarded, and
with no success anywhere the version is `"Unknown"` with every picked
record accumulated.  This corrects both "highest version by Version
Model ordering" and "every failure of a never-successful version is
folded in". -/
theorem revision_lastSuccess_characterization (rows : List RevisionRecord) :
    revision (some rows) = specRevisionOf (groupRows rows) := by
  show revisionOf (groupRows rows) = specRevisionOf (groupRows rows)
  unfold revisionOf specRevisionOf
  rw [revisionFold_char (groupRows rows) "Unknown" []]
  cases hsl : specLastSuccess (groupRows rows) with
  | some kv => simp only [hsl]
  | none => simp only [hsl, List.nil_append]

/-! ## Order-theoretic facts about version comparison (C9) -/

theorem specCmpNat_refl (l : List Nat) : specCmpNat l l = 0 := by
  induction l with
  | nil => rfl
  | cons a as ih => simp [specCmpNat, ih]

theorem specCmpNat_neg (l1 : List Nat) :
    ∀ l2, specCmpNat l1 l2 = -specCmpNat l2 l1 := by
  induction l1 with
  | nil => intro l2; cases l2 <;> simp [specCmpNat]
  | cons a as ih =>
    intro l2
    cases l2 with
    | nil => simp [specCmpNat]
    | cons b bs =>
      simp only [specCmpNat]
      by_cases h1 : a < b
      · rw [if_pos h1, if_neg (by omega), if_pos h1]
      · rw [if_neg h1]
        by_cases h2 : b < a
        · rw [if_pos h2, if_pos h2]
          rfl
        · rw [if_neg h2, if_neg h2, if_neg h1]
          exact ih bs

theorem specCmpNat_trans_eqlen (a : List Nat) :
    ∀ (b c : List Nat), a.length = b.length → b.length = c.length →
      specCmpNat a b ≠ 1 → specCmpNat b c ≠ 1 → specCmpNat a c ≠ 1 := by
  induction a with
  | nil =>
    intro b c hl1 hl2 hab hbc
    cases b with
    | nil =>
      cases c with
      | nil => simp [specCmpNat]
      | cons z cs => cases hl2
    | cons y bs => cases hl1
  | cons x as ih =>
    intro b c hl1 hl2 hab hbc
    cases b with
    | nil => cases hl1
    | cons y bs =>
      cases c with
      | nil => cases hl2
      | cons z cs =>
        have hl1' : as.length = bs.length := by simpa using hl1
        have hl2' : bs.length = cs.length := by simpa using hl2
        have hxy : x ≤ y := by
          by_contra hc
          rw [specCmpNat, if_neg (by omega), if_pos (by omega)] at hab
          exact hab rfl
        have hyz : y ≤ z := by
          by_contra hc
          rw [specCmpNat, if_neg (by omega), if_pos (by omega)] at hbc
          exact hbc rfl
        rw [specCmpNat]
        by_cases hxz : x < z
        · rw [if_pos hxz]; simp
        · rw [if_neg hxz, if_neg (by omega)]
          have hxy' : x = y := by omega
          have hyz' : y = z := by omega
          have hab' : specCmpNat as bs ≠ 1 := by
            rw [specCmpNat, if_neg (by omega), if_neg (by omega)] at hab
            exact hab
          have hbc' : specCmpNat bs cs ≠ 1 := by
            rw [specCmpNat, if_neg (by omega), if_neg (by omega)] at hbc
            exact hbc
          exact ih bs cs hl1' hl2' hab' hbc'

theorem specCmpNat_append_zeros (l1 : List Nat) :
    ∀ (l2 : List Nat) (k : Nat), l1.length = l2.length →
      specCmpNat (l1 ++ List.replicate k 0) (l2 ++ List.replicate k 0)
        = specCmpNat l1 l2 := by
  induction l1 with
  | nil =>
    intro l2 k h
    cases l2 with
    | nil =>
      simp only [List.nil_append]
      rw [specCmpNat_refl]
      rfl
    | cons y bs => cases h
  | cons a as ih =>
    intro l2 k h
    cases l2 with
    | nil => cases h
    | cons b bs =>
      simp only [List.cons_append, specCmpNat]
      by_cases h1 : a < b
      · rw [if_pos h1, if_pos h1]
      · rw [if_neg h1, if_neg h1]
        by_cases h2 : b < a
        · rw [if_pos h2, if_pos h2]
        · rw [if_neg h2, if_neg h2]
          exact ih bs k (by simpa using h)

theorem specPadNat_length (l : List Nat) (n : Nat) (h : l.length ≤ n) :
    (specPadNat l n).length = n := by
  simp only [specPadNat, List.length_append, List.length_replicate]
  omega

theorem specPadNat_split (l : List Nat) (m n : Nat) (h1 : l.length ≤ m) (h2 : m ≤ n) :
    specPadNat l n = specPadNat l m ++ List.replicate (n - m) 0 := by
  simp only [specPadNat, List.append_assoc, ← List.replicate_add]
  have harith : n - l.length = (m - l.length) + (n - m) := by omega
  rw [harith]

theorem specPadCompare_via (x y : List Nat) (N : Nat)
    (h : max x.length y.length ≤ N) :
    specCmpNat (specPadNat x N) (specPadNat y N) = specPadCompare x y := by
  have hx : x.length ≤ max x.length y.length := le_max_left _ _
  have hy : y.length ≤ max x.length y.length := le_max_right _ _
  rw [specPadNat_split x (max x.length y.length) N hx h,
      specPadNat_split y (max x.length y.length) N hy h,
      specCmpNat_append_zeros _ _ _
        (by rw [specPadNat_length _ _ hx, specPadNat_length _ _ hy])]
  rfl

theorem specPadCompare_refl (x : List Nat) : specPadCompare x x = 0 := by
  simp [specPadCompare, specCmpNat_refl]

theorem specPadCompare_neg (x y : List Nat) :
    specPadCompare x y = -specPadCompare y x := by
  unfold specPadCompare
  rw [Nat.max_comm y.length x.length]
  exact specCmpNat_neg _ _

theorem specPadCompare_trans (x y z : List Nat)
    (h1 : specPadCompare x y ≠ 1) (h2 : specPadCompare y z ≠ 1) :
    specPadCompare x z ≠ 1 := by
  have hxy : max x.length y.length ≤ max x.length (max y.length z.length) := by
    omega
  have hyz : max y.length z.length ≤ max x.length (max y.length z.length) := by
    omega
  have hxz : max x.length z.length ≤ max x.length (max y.length z.length) := by
    omega
  rw [← specPadCompare_via x y _ hxy] at h1
  rw [← specPadCompare_via y z _ hyz] at h2
  rw [← specPadCompare_via x z _ hxz]
  have hlx : x.length ≤ max x.length (max y.length z.length) := by
    omega
  have hly : y.length ≤ max x.length (max y.length z.length) := by
    omega
  have hlz : z.length ≤ max x.length (max y.length z.length) := by
    omega
  exact specCmpNat_trans_eqlen _ _ _
    (by rw [specPadNat_length _ _ hlx, specPadNat_length _ _ hly])
    (by rw [specPadNat_length _ _ hly, specPadNat_length _ _ hlz])
    h1 h2

theorem cmpParts_cases (l1 : List String) :
    ∀ l2, cmpParts l1 l2 = -1 ∨ cmpParts l1 l2 = 0 ∨ cmpParts l1 l2 = 1 := by
  induction l1 with
  | nil => intro l2; cases l2 <;> simp [cmpParts]
  | cons a as ih =>
    intro l2
    cases l2 with
    | nil => simp [cmpParts]
    | cons b bs =>
      rcases hxa : jsToNum a with _ | x <;> rcases hyb : jsToNum b with _ | y <;>
        simp only [cmpParts, hxa, hyb]
      · exact ih bs
      · exact ih bs
      · exact ih bs
      · by_cases h1 : x < y
        · rw [if_pos h1]; exact Or.inl rfl
        · rw [if_neg h1]
          by_cases h2 : y < x
          · rw [if_pos h2]; exact Or.inr (Or.inr rfl)
          · rw [if_neg h2]; exact ih bs

theorem compareVersion_cases (v1 v2 : Option String) :
    compareVersion v1 v2 = -1 ∨ compareVersion v1 v2 = 0 ∨ compareVersion v1 v2 = 1 := by
  unfold compareVersion
  by_cases h1 : jsFalsy v1 = true
  · rw [if_pos h1]
    by_cases h2 : jsFalsy v2 = true
    · rw [if_pos h2]; exact Or.inr (Or.inl rfl)
    · rw [if_neg h2]; exact Or.inl rfl
  · rw [if_neg h1]
    by_cases h2 : jsFalsy v2 = true
    · rw [if_pos h2]; exact Or.inr (Or.inr rfl)
    · rw [if_neg h2]; exact cmpParts_cases _ _

theorem validVersionStr_parts (s : String) (h : validVersionStr s = true) :
    s ≠ "" ∧ ∀ p ∈ jsSplit s '.', p ≠ "" ∧ p.toList.all Char.isDigit = true := by
  unfold validVersionStr at h
  rw [Bool.and_eq_true] at h
  rcases h with ⟨h1, h2⟩
  refine ⟨of_decide_eq_true h1, ?_⟩
  intro p hp
  have hp' := List.all_eq_true.mp h2 p hp
  rw [Bool.and_eq_true] at hp'
  rcases hp' with ⟨hp1, hp2⟩
  exact ⟨of_decide_eq_true hp1, hp2⟩

theorem jsToNum_isSome_of_component (p : String) (hne : p ≠ "")
    (hdig : p.toList.all Char.isDigit = true) : (jsToNum p).isSome = true := by
  unfold jsToNum charsToNat?
  rw [if_neg hne]
  cases hl : p.toList with
  | nil => exact absurd (String.ext hl) hne
  | cons c cs =>
    rw [hl] at hdig
    rw [if_neg (by simp), if_pos hdig]
    rfl

theorem cmpParts_eq_specCmpNat (l1 : List String) :
    ∀ l2, (∀ s ∈ l1, (jsToNum s).isSome = true) →
      (∀ s ∈ l2, (jsToNum s).isSome = true) →
      cmpParts l1 l2 = specCmpNat (l1.map (fun s => (jsToNum s).getD 0))
                                  (l2.map (fun s => (jsToNum s).getD 0)) := by
  induction l1 with
  | nil => intro l2 _ _; cases l2 <;> rfl
  | cons a as ih =>
    intro l2 h1 h2
    cases l2 with
    | nil => rfl
    | cons b bs =>
      have ha := h1 a (List.mem_cons_self _ _)
      have hb := h2 b (List.mem_cons_self _ _)
      rcases hxa : jsToNum a with _ | x
      · rw [hxa] at ha; cases ha
      rcases hyb : jsToNum b with _ | y
      · rw [hyb] at hb; cases hb
      simp only [cmpParts, hxa, hyb, List.map_cons, specCmpNat, Option.getD_some]
      by_cases hxy : x < y
      · rw [if_pos hxy, if_pos hxy]
      · rw [if_neg hxy, if_neg hxy]
        by_cases hyx : y < x
        · rw [if_pos hyx, if_pos hyx]
        · rw [if_neg hyx, if_neg hyx]
          exact ih bs (fun s hs => h1 s (List.mem_cons_of_mem _ hs))
            (fun s hs => h2 s (List.mem_cons_of_mem _ hs))

theorem jsToNum_padded_isSome (l : List String) (n : Nat)
    (hl : ∀ p ∈ l, p ≠ "" ∧ p.toList.all Char.isDigit = true) :
    ∀ s ∈ padZeros l n, (jsToNum s).isSome = true := by
  intro s hs
  rcases List.mem_append.mp hs with h | h
  · obtain ⟨hne, hdig⟩ := hl s h
    exact jsToNum_isSome_of_component s hne hdig
  · have hz : s = "0" := List.eq_of_mem_replicate h
    subst hz
    rfl

theorem map_padZeros_eq_specPadNat (l : List String) (n : Nat)
    (hl : ∀ p ∈ l, p ≠ "") :
    (padZeros l n).map (fun s => (jsToNum s).getD 0)
      = specPadNat (l.map (fun p => (charsToNat? p.toList).getD 0)) n := by
  unfold padZeros specPadNat
  rw [List.map_append, List.map_replicate]
  have hhead : l.map (fun s => (jsToNum s).getD 0)
      = l.map (fun p => (charsToNat? p.toList).getD 0) := by
    apply List.map_congr_left
    intro p hp
    unfold jsToNum
    rw [if_neg (hl p hp)]
  have hzero : ((jsToNum "0").getD 0) = 0 := rfl
  rw [hhead, hzero, List.length_map]

theorem compareVersion_valid_refines (a b : String)
    (ha : validVersionStr a = true) (hb : validVersionStr b = true) :
    compareVersion (some a) (some b)
      = specPadCompare (versionParts a) (versionParts b) := by
  obtain ⟨ha0, hacomp⟩ := validVersionStr_parts a ha
  obtain ⟨hb0, hbcomp⟩ := validVersionStr_parts b hb
  unfold compareVersion
  rw [if_neg (by simp [jsFalsy, ha0]), if_neg (by simp [jsFalsy, hb0])]
  simp only [Option.getD_some]
  rw [cmpParts_eq_specCmpNat _ _
        (jsToNum_padded_isSome _ _ hacomp) (jsToNum_padded_isSome _ _ hbcomp),
      map_padZeros_eq_specPadNat _ _ (fun p hp => (hacomp p hp).1),
      map_padZeros_eq_specPadNat _ _ (fun p hp => (hbcomp p hp).1)]
  unfold specPadCompare versionParts
  rw [List.length_map, List.length_map]

/-- C9: `compareVersion` refines the specification's construction — on
well-formed versions it equals the padded element-wise comparison
`specPadCompare` of the integer tuples — satisfies the three worked
examples, treats a missing (or empty) version as smaller than any
present one and two missing versions as equal, only ever returns
-1 / 0 / 1, and is reflexive, antisymmetric (as a comparator) and
transitive on well-formed versions, i.e. a total preorder whose
equivalence identifies versions up to trailing zero groups. -/
theorem compareVersion_total_order_spec :
    (∀ a b : String, validVersionStr a = true → validVersionStr b = true →
        compareVersion (some a) (some b)
          = specPadCompare (versionParts a) (versionParts b))
    ∧ compareVersion (some "1.2") (some "1.2.0") = 0
    ∧ compareVersion (some "1.9") (some "1.10") = -1
    ∧ compareVersion (some "2") (some "1.99") = 1
    ∧ (∀ v : String, v ≠ "" →
        compareVersion none (some v) = -1 ∧ compareVersion (some v) none = 1)
    ∧ compareVersion none none = 0
    ∧ (∀ v1 v2 : Option String,
        compareVersion v1 v2 = -1 ∨ compareVersion v1 v2 = 0 ∨ compareVersion v1 v2 = 1)
    ∧ (∀ a : String, validVersionStr a = true →
        compareVersion (some a) (some a) = 0)
    ∧ (∀ a b : String, validVersionStr a = true → validVersionStr b = true →
        compareVersion (some a) (some b) = -compareVersion (some b) (some a))
    ∧ (∀ a b c : String, validVersionStr a = true → validVersionStr b = true →
        validVersionStr c = true →
        compareVersion (some a) (some b) ≠ 1 →
        compareVersion (some b) (some c) ≠ 1 →
        compareVersion (some a) (some c) ≠ 1) := by
  refine ⟨compareVersion_valid_refines, by decide, by decide, by decide, ?_,
    by decide, compareVersion_cases, ?_, ?_, ?_⟩
  · intro v hv
    exact ⟨by simp [compareVersion, jsFalsy, hv], by simp [compareVersion, jsFalsy, hv]⟩
  · intro a ha
    rw [compareVersion_valid_refines a a ha ha]
    exact specPadCompare_refl _
  · intro a b ha hb
    rw [compareVersion_valid_refines a b ha hb, compareVersion_valid_refines b a hb ha]
    exact specPadCompare_neg _ _
  · intro a b c ha hb hc h1 h2
    rw [compareVersion_valid_refines a c ha hc]
    rw [compareVersion_valid_refines a b ha hb] at h1
    rw [compareVersion_valid_refines b c hb hc] at h2
    exact specPadCompare_trans _ _ _ h1 h2

/-- Witness for `compareVersion_total_order_spec` at concrete versions:
the refinement at `("1.2", "1.2.0")`, transitivity along
`"1" ≤ "1.5" ≤ "2"`, and reflexivity at `"3"`. -/
theorem compareVersion_total_order_spec_witness :
    compareVersion (some "1.2") (some "1.2.0")
        = specPadCompare (versionParts "1.2") (versionParts "1.2.0")
    ∧ compareVersion (some "1") (some "2") ≠ 1
    ∧ compareVersion (some "3") (some "3") = 0 :=
  ⟨compareVersion_total_order_spec.1 "1.2" "1.2.0" (by decide) (by decide),
   compareVersion_total_order_spec.2.2.2.2.2.2.2.2.2 "1" "1.5" "2"
     (by decide) (by decide) (by decide) (by decide) (by decide),
   compareVersion_total_order_spec.2.2.2.2.2.2.2.1 "3" (by decide)⟩

/-- C4 (amended): the `targetVersion` rule of discovery excludes a
successfully parsed entry exactly when its version is STRICTLY GREATER
than the target (`compareVersion(version, target) == 1`) — an entry
whose version differs from the target but is not greater passes the
target rule (and, with no `baseVersion` given, is kept). -/
theorem discovery_target_filter_strictly_greater
    (target : String) (ht : target ≠ "")
    (base : Option String) (bvo : Option (List String))
    (directory script : String) (m : Migration)
    (hp : parseFilename (directory ++ "/" ++ script) = .ok m) :
    (compareVersion (some m.version) (some target) = 1 →
        discoveryFilter (some target) base bvo directory script = none)
    ∧ (compareVersion (some m.version) (some target) ≠ 1 →
        discoveryFilter (some target) none none directory script = some m) := by
  constructor
  · intro hcmp
    simp [discoveryFilter, hp, jsFalsy, ht, hcmp]
  · intro hcmp
    simp [discoveryFilter, hp, jsFalsy, ht, beq_iff_eq, hcmp]

/-- Witness for `discovery_target_filter_strictly_greater`: with target
`"2"`, the entry `V1__a.sql` (version `"1"`, different from but not
greater than the target) is kept. -/
theorem discovery_target_filter_strictly_greater_witness :
    discoveryFilter (some "2") none none "migrations" "V1__a.sql" = some mV1a :=
  (discovery_target_filter_strictly_greater "2" (by decide) none none
    "migrations" "V1__a.sql" mV1a (by decide)).2 (by decide)

end DbMigrate
